import Mathlib

/-!
Verification development for the TaskNotes core: reference resolution and
duplicate detection (duplicate-detector), the bulk generation and conversion
engines (bulk-task-engine, bulk-convert-engine), and the query-change watcher
(BasesQueryWatcher).  Strings are modelled as lists of characters; the
JavaScript runtime behaviours used by the code (regular-expression matches,
Set insertion semantics, truthiness of empty strings, timer reset semantics)
are embedded explicitly.
-/

namespace TaskNotes

/-- Strings are modelled as lists of characters. -/
abbrev Str := List Char

/-- Converts a Lean string literal into the character-list model. -/
def str (s : String) : Str := s.data

/-- Lower-cases every character, as JavaScript toLowerCase does on ASCII input. -/
def lowerStr (s : Str) : Str := s.map Char.toLower

/-- Drops leading and trailing whitespace, as JavaScript String.prototype.trim. -/
def trimStr (s : Str) : Str :=
  ((s.dropWhile Char.isWhitespace).reverse.dropWhile Char.isWhitespace).reverse

/-! ## duplicate-detector: extractPathFromLink, normalizePath, taskLinksToSource -/

/-- Decides the language of the anchored wiki-link pattern used by
extractPathFromLink (two opening brackets, a target with no closing bracket
and no pipe, an optional pipe-separated alias with no closing bracket, two
closing brackets) and returns the captured target. -/
def wikiMatch (s : Str) : Option Str :=
  if 5 ≤ s.length ∧ s.take 2 = ['[', '['] ∧ s.drop (s.length - 2) = [']', ']'] then
    let A := (s.drop 2).take (s.length - 4)
    if ']' ∈ A then none
    else if '|' ∈ A then
      let B := A.takeWhile (fun c => c ≠ '|')
      let C := (A.dropWhile (fun c => c ≠ '|')).drop 1
      if B ≠ [] ∧ C ≠ [] then some B else none
    else if A ≠ [] then some A else none
  else none

/-- Checks the tail of a candidate markdown-link match: the remainder must be
a nonempty run of characters other than a closing parenthesis, followed by a
final closing parenthesis, and returns that run. -/
def mdTailCheck (r : Str) : Option Str :=
  if r.getLast? = some ')' ∧ r.dropLast ≠ [] ∧ ')' ∉ r.dropLast then some r.dropLast
  else none

/-- JavaScript line terminators: the characters the dot of a regular
expression never matches. -/
def isLineTerminator (c : Char) : Bool :=
  c = '\n' || c = '\r' || c = Char.ofNat 0x2028 || c = Char.ofNat 0x2029

/-- Scans for the first closing-bracket/opening-parenthesis boundary whose
tail completes the anchored markdown-link pattern, mirroring the lazy
quantifier in the regular expression of extractPathFromLink.  Every label
character the lazy quantifier has to consume must be matchable by the dot,
so reaching a line terminator before a successful boundary fails the whole
pattern. -/
def mdScan : Str → Option Str
  | [] => none
  | c :: rest =>
    if c = ']' then
      match rest with
      | '(' :: rest2 =>
        match mdTailCheck rest2 with
        | some y => some y
        | none => mdScan rest
      | _ => mdScan rest
    else if isLineTerminator c then none
    else mdScan rest

/-- Decides the anchored markdown-link pattern of extractPathFromLink and
returns the captured target. -/
def mdMatch : Str → Option Str
  | '[' :: rest => mdScan rest
  | _ => none

/-- Embeds extractPathFromLink: empty input yields the empty string, a
wiki-link yields its trimmed target, a markdown link yields its trimmed
target, and anything else is trimmed and returned as a plain path. -/
def extractPathFromLink (link : Str) : Str :=
  if link = [] then []
  else
    match wikiMatch link with
    | some t => trimStr t
    | none =>
      match mdMatch link with
      | some t => trimStr t
      | none => trimStr link

/-- Tests for a trailing document extension, case-insensitively, as the
anchored case-insensitive regular expression in normalizePath does. -/
def hasMdSuffix (p : Str) : Bool := List.isSuffixOf (str ".md") (lowerStr p)

/-- Embeds normalizePath: strips one trailing document-extension suffix
(case-insensitively) and lower-cases the result. -/
def normalizePath (p : Str) : Str :=
  lowerStr (if hasMdSuffix p then p.take (p.length - 3) else p)

/-- Embeds the basename computation of taskLinksToSource: the segment after
the last slash, falling back to the whole string when that segment is empty
(JavaScript pop of a split returning an empty, hence falsy, last element). -/
def basenameOf (p : Str) : Str :=
  let last := (p.reverse.takeWhile (fun c => c ≠ '/')).reverse
  if last = [] then p else last

/-- The slice of a task record that duplicate detection reads: its own path
and its link-list (the projects field); a missing or empty projects field is
modelled as the empty list, which the code treats identically. -/
structure TaskInfo where
  path : Str
  projects : List Str
deriving DecidableEq, Repr

/-- Embeds taskLinksToSource: some reference in the task's projects list
matches the source path exactly, by basename, or by folder-qualified
suffix in either direction, all after normalization. -/
def taskLinksToSource (task : TaskInfo) (sourcePath : Str) : Bool :=
  let S := normalizePath sourcePath
  let Sb := basenameOf S
  task.projects.any fun proj =>
    let P := normalizePath (extractPathFromLink proj)
    let Pb := basenameOf P
    P == S || Pb == Sb || List.isSuffixOf ('/' :: Sb) P || List.isSuffixOf ('/' :: Pb) S

/-- The paths of all tasks whose link-list matches a given source path,
in task-set order, as collected by the inner loop of checkForDuplicates. -/
def linkedTaskPathsFor (allTasks : List TaskInfo) (sourcePath : Str) : List Str :=
  (allTasks.filter fun t => taskLinksToSource t sourcePath).map TaskInfo.path

/-- Result shape of checkForDuplicates. -/
structure DuplicateCheckResult where
  existingTaskPaths : List Str
  sourceToTaskMap : List (Str × List Str)
deriving DecidableEq, Repr

/-- Embeds checkForDuplicates: every source path with at least one linked
task is collected, together with the map from source path to linked tasks. -/
def checkForDuplicates (allTasks : List TaskInfo) (sourcePaths : List Str) : DuplicateCheckResult :=
  { existingTaskPaths := sourcePaths.filter fun p => !(linkedTaskPathsFor allTasks p).isEmpty
    sourceToTaskMap := sourcePaths.filterMap fun p =>
      let l := linkedTaskPathsFor allTasks p
      if l.isEmpty then none else some (p, l) }

/-! ## Character-level facts used for normalization -/

/-- Lower-casing a character is idempotent. -/
theorem toLower_toLower (c : Char) : c.toLower.toLower = c.toLower := by
  unfold Char.toLower
  by_cases h : c.toNat ≥ 65 ∧ c.toNat ≤ 90
  · simp only [h, if_true]
    obtain ⟨h1, h2⟩ := h
    set m := c.toNat with hm
    interval_cases m <;> simp only [and_self, if_true] <;> decide
  · simp [h]

/-- Lower-casing a character list is idempotent. -/
theorem lowerStr_lowerStr (s : Str) : lowerStr (lowerStr s) = lowerStr s := by
  unfold lowerStr
  rw [List.map_map]
  exact List.map_congr_left fun c _ => toLower_toLower c

/-- Taking a prefix commutes with lower-casing. -/
theorem lowerStr_take (s : Str) (n : Nat) : lowerStr (s.take n) = (lowerStr s).take n := by
  simp [lowerStr, List.map_take]

/-- C2 counterexample: normalizePath is not idempotent on a path with a
doubled document extension; the first application strips one extension and
exposes another, which the second application strips as well. -/
theorem normalizePath_idem_counterexample :
    normalizePath (normalizePath (str "a.md.md")) ≠ normalizePath (str "a.md.md") := by
  decide

/-- C2 (amended): normalizePath is idempotent on every path that does not
end, case-insensitively, with a doubled document extension. -/
theorem normalizePath_idem_amended (p : Str)
    (hp : ¬ List.isSuffixOf (str ".md.md") (lowerStr p)) :
    normalizePath (normalizePath p) = normalizePath p := by
  by_cases h : hasMdSuffix p
  · have hs : str ".md" <:+ lowerStr p := by
      have := h
      unfold hasMdSuffix at this
      simpa using this
    obtain ⟨u, hu⟩ := hs
    have hplen : p.length = u.length + 3 := by
      have hl : (lowerStr p).length = p.length := by simp [lowerStr]
      have : (u ++ str ".md").length = (lowerStr p).length := by rw [hu]
      simp [str] at this
      omega
    have hufromtake : u = (lowerStr p).take u.length := by
      rw [← hu, List.take_left]
    have h1 : normalizePath p = u := by
      unfold normalizePath
      rw [if_pos h, lowerStr_take, hplen]
      have : u.length + 3 - 3 = u.length := by omega
      rw [this, ← hu, List.take_left]
    have hlow : lowerStr u = u := by
      rw [hufromtake, lowerStr_take, lowerStr_lowerStr]
    have hnot : ¬ hasMdSuffix u = true := by
      intro hcon
      unfold hasMdSuffix at hcon
      rw [hlow] at hcon
      have : str ".md" <:+ u := by simpa using hcon
      obtain ⟨w, hw⟩ := this
      apply hp
      have : str ".md.md" <:+ lowerStr p := by
        refine ⟨w, ?_⟩
        rw [← hu, ← hw]
        simp [str]
      simpa using this
    rw [h1]
    unfold normalizePath
    rw [if_neg hnot, hlow]
  · have h2 : ¬ hasMdSuffix (lowerStr p) = true := by
      intro hcon
      apply h
      unfold hasMdSuffix at *
      rwa [lowerStr_lowerStr] at hcon
    unfold normalizePath
    rw [if_neg h, if_neg h2, lowerStr_lowerStr]

/-- C2 witness: the amended idempotence theorem applied to a concrete
mixed-case path with a single document extension. -/
theorem normalizePath_idem_witness :
    normalizePath (normalizePath (str "Docs/Report.MD")) = normalizePath (str "Docs/Report.MD") :=
  normalizePath_idem_amended (str "Docs/Report.MD") (by decide)

/-! ## Facts about extractPathFromLink -/

/-- Splitting a pipe-separated wiki-link body at the first pipe. -/
theorem pipe_split (t a : Str) (ht : '|' ∉ t) :
    (t ++ '|' :: a).takeWhile (fun c => c ≠ '|') = t ∧
    (t ++ '|' :: a).dropWhile (fun c => c ≠ '|') = '|' :: a := by
  induction t with
  | nil => simp [List.takeWhile, List.dropWhile]
  | cons c cs ih =>
    have hc : c ≠ '|' := fun hcc => ht (by simp [hcc])
    have hcs : '|' ∉ cs := fun hm => ht (by simp [hm])
    obtain ⟨ih1, ih2⟩ := ih hcs
    constructor
    · simpa [List.takeWhile_cons, hc] using ih1
    · simpa [List.dropWhile_cons, hc] using ih2

/-- The wiki-link pattern accepts a bracketed target without alias. -/
theorem wikiMatch_plain (t : Str) (h0 : t ≠ []) (h1 : ']' ∉ t) (h2 : '|' ∉ t) :
    wikiMatch (str "[[" ++ t ++ str "]]") = some t := by
  have hlen : (str "[[" ++ t ++ str "]]").length = t.length + 4 := by
    simp [str]
    all_goals omega
  have htpos : 1 ≤ t.length := by
    cases t with
    | nil => exact absurd rfl h0
    | cons _ _ => simp
  unfold wikiMatch
  rw [hlen]
  have hcond : 5 ≤ t.length + 4 ∧ (str "[[" ++ t ++ str "]]").take 2 = ['[', '['] ∧
      (str "[[" ++ t ++ str "]]").drop (t.length + 4 - 2) = [']', ']'] := by
    refine ⟨by omega, ?_, ?_⟩
    · have hassoc : str "[[" ++ t ++ str "]]" = str "[[" ++ (t ++ str "]]") := by simp
      rw [hassoc, show (2 : Nat) = (str "[[").length by decide, List.take_left]
      all_goals decide
    · have hassoc : str "[[" ++ t ++ str "]]" = (str "[[" ++ t) ++ str "]]" := by simp
      have hl : (str "[[" ++ t).length = t.length + 2 := by
        simp [str]
        all_goals omega
      rw [hassoc]
      have hn : t.length + 4 - 2 = (str "[[" ++ t).length := by omega
      rw [hn, List.drop_left]
      all_goals decide
  rw [if_pos hcond]
  have hA : ((str "[[" ++ t ++ str "]]").drop 2).take (t.length + 4 - 4) = t := by
    have : str "[[" ++ t ++ str "]]" = str "[[" ++ (t ++ str "]]") := by simp
    rw [this]
    have h2' : (2 : Nat) = (str "[[").length := by decide
    rw [h2', List.drop_left]
    have : t.length + 4 - 4 = t.length := by omega
    rw [this, List.take_left]
  rw [hA, if_neg h1]
  have h2' : ¬ ('|' ∈ t) := h2
  rw [if_neg h2']
  rw [if_pos h0]

/-- The wiki-link pattern accepts a bracketed target with a pipe alias and
captures the part before the first pipe. -/
theorem wikiMatch_alias (t a : Str) (h0 : t ≠ []) (h1 : ']' ∉ t) (h2 : '|' ∉ t)
    (h3 : a ≠ []) (h4 : ']' ∉ a) :
    wikiMatch (str "[[" ++ t ++ '|' :: a ++ str "]]") = some t := by
  have hlen : (str "[[" ++ t ++ '|' :: a ++ str "]]").length = t.length + a.length + 5 := by
    simp [str]
    all_goals omega
  unfold wikiMatch
  rw [hlen]
  have hmid : str "[[" ++ t ++ '|' :: a ++ str "]]" = str "[[" ++ ((t ++ '|' :: a) ++ str "]]") := by
    simp
  have hcond : 5 ≤ t.length + a.length + 5 ∧
      (str "[[" ++ t ++ '|' :: a ++ str "]]").take 2 = ['[', '['] ∧
      (str "[[" ++ t ++ '|' :: a ++ str "]]").drop (t.length + a.length + 5 - 2) = [']', ']'] := by
    refine ⟨by omega, ?_, ?_⟩
    · rw [hmid]
      have h2' : (2 : Nat) = (str "[[").length := by decide
      rw [h2', List.take_left]
      decide
    · have hassoc : str "[[" ++ t ++ '|' :: a ++ str "]]" = (str "[[" ++ (t ++ '|' :: a)) ++ str "]]" := by
        simp
      have hl : (str "[[" ++ (t ++ '|' :: a)).length = t.length + a.length + 3 := by
        simp [str]
        all_goals omega
      rw [hassoc]
      have : t.length + a.length + 5 - 2 = (str "[[" ++ (t ++ '|' :: a)).length := by omega
      rw [this, List.drop_left]
      decide
  rw [if_pos hcond]
  have hA : ((str "[[" ++ t ++ '|' :: a ++ str "]]").drop 2).take (t.length + a.length + 5 - 4) = t ++ '|' :: a := by
    rw [hmid]
    have h2' : (2 : Nat) = (str "[[").length := by decide
    rw [h2', List.drop_left]
    have hn : t.length + a.length + 5 - 4 = (t ++ '|' :: a).length := by simp; omega
    rw [hn, List.take_left]
  rw [hA]
  have hnr : ']' ∉ t ++ '|' :: a := by
    intro hm
    rcases List.mem_append.mp hm with hm | hm
    · exact h1 hm
    · rcases List.mem_cons.mp hm with hm | hm
      · exact absurd hm.symm (by decide)
      · exact h4 hm
  rw [if_neg hnr]
  have hp : '|' ∈ t ++ '|' :: a := by simp
  rw [if_pos hp]
  obtain ⟨hB, hC⟩ := pipe_split t a h2
  rw [hB, hC]
  simp [h0, h3]

/-- The wiki-link pattern rejects every string whose last character is not a
closing bracket. -/
theorem wikiMatch_none_of_last_ne (s : Str) (c : Char) (hc : s.getLast? = some c)
    (hne : c ≠ ']') : wikiMatch s = none := by
  unfold wikiMatch
  split
  · next hcond =>
    exfalso
    obtain ⟨-, -, hdrop⟩ := hcond
    have hs : s = s.take (s.length - 2) ++ s.drop (s.length - 2) := (List.take_append_drop _ _).symm
    rw [hdrop] at hs
    have : s.getLast? = some ']' := by
      rw [hs]
      have hsplit : List.take (List.length s - 2) s ++ [']', ']'] =
          (List.take (List.length s - 2) s ++ [']']) ++ [']'] := by simp
      rw [hsplit]
      exact List.getLast?_concat _
    rw [hc] at this
    exact hne (by injection this)
  · rfl

/-- Scanning a markdown-link body past label characters that are not closing
brackets, then capturing the parenthesized target. -/
theorem mdScan_label (lab t : Str) (hlab : ']' ∉ lab)
    (hnl : ∀ c ∈ lab, isLineTerminator c = false) (h0 : t ≠ []) (h1 : ')' ∉ t) :
    mdScan (lab ++ str "](" ++ t ++ str ")") = some t := by
  induction lab with
  | nil =>
    have hshape : ([] : Str) ++ str "](" ++ t ++ str ")" = ']' :: '(' :: (t ++ [')']) := by
      simp [str]
    rw [hshape]
    have htail : mdTailCheck (t ++ [')']) = some t := by
      unfold mdTailCheck
      rw [if_pos]
      · congr 1
        exact List.dropLast_concat
      · refine ⟨?_, ?_, ?_⟩
        · exact List.getLast?_concat _
        · rw [List.dropLast_concat]
          exact h0
        · rw [List.dropLast_concat]
          exact h1
    simp [mdScan, htail]
  | cons c cs ih =>
    have hc : c ≠ ']' := fun hcc => hlab (by simp [hcc])
    have hcs : ']' ∉ cs := fun hm => hlab (by simp [hm])
    have hcnl : isLineTerminator c = false := hnl c (by simp)
    have hcsnl : ∀ x ∈ cs, isLineTerminator x = false := fun x hx => hnl x (by simp [hx])
    have hshape : (c :: cs) ++ str "](" ++ t ++ str ")" = c :: (cs ++ str "](" ++ t ++ str ")") := by
      simp
    rw [hshape]
    simp only [mdScan, if_neg hc]
    rw [if_neg (by simp [hcnl])]
    exact ih hcs hcsnl

/-- C8 counterexample: on unrecognized non-empty input the code returns the
trimmed input, which is neither the verbatim input nor the empty string. -/
theorem extractPathFromLink_counterexample :
    extractPathFromLink (str " A ") ≠ str " A " ∧ extractPathFromLink (str " A ") ≠ str "" := by
  decide

/-- C8 (amended): extractPathFromLink returns the trimmed target of both
wiki-link forms and of the markdown-link form (whose label may not contain
a line terminator, which the dot of the pattern never matches), returns
every other input trimmed (so a bare path is returned unchanged when it has
no surrounding whitespace), and returns the empty string on empty input. -/
theorem extractPathFromLink_amended :
    (∀ t : Str, t ≠ [] → ']' ∉ t → '|' ∉ t →
      extractPathFromLink (str "[[" ++ t ++ str "]]") = trimStr t)
    ∧ (∀ t a : Str, t ≠ [] → ']' ∉ t → '|' ∉ t → a ≠ [] → ']' ∉ a →
      extractPathFromLink (str "[[" ++ t ++ '|' :: a ++ str "]]") = trimStr t)
    ∧ (∀ lab t : Str, ']' ∉ lab → (∀ c ∈ lab, isLineTerminator c = false) →
      t ≠ [] → ')' ∉ t →
      extractPathFromLink ('[' :: lab ++ str "](" ++ t ++ str ")") = trimStr t)
    ∧ (∀ s : Str, wikiMatch s = none → mdMatch s = none → extractPathFromLink s = trimStr s)
    ∧ extractPathFromLink [] = [] := by
  refine ⟨?_, ?_, ?_, ?_, rfl⟩
  · intro t h0 h1 h2
    have hne : str "[[" ++ t ++ str "]]" ≠ [] := by simp [str]
    unfold extractPathFromLink
    rw [if_neg hne, wikiMatch_plain t h0 h1 h2]
  · intro t a h0 h1 h2 h3 h4
    have hne : str "[[" ++ t ++ '|' :: a ++ str "]]" ≠ [] := by simp [str]
    unfold extractPathFromLink
    rw [if_neg hne, wikiMatch_alias t a h0 h1 h2 h3 h4]
  · intro lab t hlab hnl h0 h1
    have hwiki : wikiMatch ('[' :: lab ++ str "](" ++ t ++ str ")") = none := by
      apply wikiMatch_none_of_last_ne _ ')'
      · have hshape : '[' :: lab ++ str "](" ++ t ++ str ")" =
            ('[' :: lab ++ str "](" ++ t) ++ [')'] := by simp [str]
        rw [hshape]
        exact List.getLast?_concat _
      · decide
    have hmd : mdMatch ('[' :: lab ++ str "](" ++ t ++ str ")") = some t := by
      have hshape : '[' :: lab ++ str "](" ++ t ++ str ")" =
          '[' :: (lab ++ str "](" ++ t ++ str ")") := by simp
      rw [hshape]
      show mdScan (lab ++ str "](" ++ t ++ str ")") = some t
      exact mdScan_label lab t hlab hnl h0 h1
    have hne : '[' :: lab ++ str "](" ++ t ++ str ")" ≠ [] := by simp
    unfold extractPathFromLink
    rw [if_neg hne, hwiki, hmd]
  · intro s hw hm
    unfold extractPathFromLink
    by_cases hs : s = []
    · subst hs
      simp [trimStr]
    · rw [if_neg hs, hw, hm]

/-- C8 witness: the amended theorem applied to the concrete forms of the
specification, together with evaluation of the trimmed targets. -/
theorem extractPathFromLink_witness :
    extractPathFromLink (str "[[A]]") = str "A"
    ∧ extractPathFromLink (str "[[A|B]]") = str "A"
    ∧ extractPathFromLink (str "[Label](A)") = str "A"
    ∧ extractPathFromLink (str "A") = str "A" := by
  refine ⟨?_, ?_, ?_, ?_⟩
  · exact (extractPathFromLink_amended.1 (str "A") (by decide) (by decide) (by decide)).trans (by decide)
  · have h := extractPathFromLink_amended.2.1 (str "A") (str "B") (by decide) (by decide) (by decide) (by decide) (by decide)
    have hs : str "[[" ++ str "A" ++ '|' :: str "B" ++ str "]]" = str "[[A|B]]" := by decide
    rw [hs] at h
    exact h.trans (by decide)
  · have h := extractPathFromLink_amended.2.2.1 (str "Label") (str "A") (by decide) (by decide) (by decide) (by decide)
    have hs : '[' :: str "Label" ++ str "](" ++ str "A" ++ str ")" = str "[Label](A)" := by decide
    rw [hs] at h
    exact h.trans (by decide)
  · exact (extractPathFromLink_amended.2.2.2.1 (str "A") (by decide) (by decide)).trans (by decide)

/-- C4: taskLinksToSource holds exactly when some reference in the link-list
matches the source by full normalized path, by basename, or by
folder-qualified suffix in either direction; in particular a bare reference
matches a folder-qualified source and a folder-qualified reference matches a
bare source. -/
theorem taskLinksToSource_spec :
    (∀ (task : TaskInfo) (sourcePath : Str),
      taskLinksToSource task sourcePath = true ↔
        ∃ r ∈ task.projects,
          normalizePath (extractPathFromLink r) = normalizePath sourcePath
          ∨ basenameOf (normalizePath (extractPathFromLink r)) = basenameOf (normalizePath sourcePath)
          ∨ ('/' :: basenameOf (normalizePath sourcePath)) <:+ normalizePath (extractPathFromLink r)
          ∨ ('/' :: basenameOf (normalizePath (extractPathFromLink r))) <:+ normalizePath sourcePath)
    ∧ taskLinksToSource ⟨str "task1", [str "[[Report]]"]⟩ (str "Notes/Report.md") = true
    ∧ taskLinksToSource ⟨str "task2", [str "[[Other/Report]]"]⟩ (str "Report.md") = true := by
  refine ⟨?_, by decide, by decide⟩
  intro task sourcePath
  unfold taskLinksToSource
  simp only [List.any_eq_true, Bool.or_eq_true, beq_iff_eq, List.isSuffixOf_iff_suffix]
  constructor <;> rintro ⟨r, hr, h⟩ <;> exact ⟨r, hr, by tauto⟩

/-! ## bulk-task-engine: createTasks -/

/-- Slice of a Bases data item that the batch engines read for control flow:
its source path; the empty string models a missing path, which the code
coalesces to the empty string and JavaScript treats as falsy. -/
structure BasesDataItem where
  path : Str
deriving DecidableEq, Repr

/-- Outcome of createTaskForItem for one item, as observed by the loop of
createTasks: a created task file path, a falsy file result, or a thrown
error carrying a message. -/
inductive CreateOutcome where
  | ok (taskPath : Str)
  | noFile
  | threw (msg : Str)
deriving DecidableEq, Repr

/-- Result shape of createTasks. -/
structure BulkCreationResult where
  created : Nat
  skipped : Nat
  failed : Nat
  errors : List Str
  createdPaths : List Str
deriving DecidableEq, Repr

/-- The non-skip part of the createTasks loop body: delegate to the task
service and record success or failure, the error string identifying the
item's source path. -/
def createApply (svc : BasesDataItem → CreateOutcome) (acc : BulkCreationResult)
    (item : BasesDataItem) : BulkCreationResult :=
  match svc item with
  | .ok p => { acc with
      created := acc.created + 1
      createdPaths := acc.createdPaths ++ [p] }
  | .noFile => { acc with
      failed := acc.failed + 1
      errors := acc.errors ++ [str "Failed to create task for: " ++ item.path] }
  | .threw m => { acc with
      failed := acc.failed + 1
      errors := acc.errors ++ [str "Error for " ++ item.path ++ str ": " ++ m] }

/-- One iteration of the createTasks loop: skip when skipExisting is set and
the up-front duplicate check flagged the item's path, otherwise create. -/
def createStep (svc : BasesDataItem → CreateOutcome) (existing : List Str)
    (skipExisting : Bool) (acc : BulkCreationResult) (item : BasesDataItem) : BulkCreationResult :=
  if skipExisting = true ∧ item.path ∈ existing then { acc with skipped := acc.skipped + 1 }
  else createApply svc acc item

/-- Embeds createTasks: one up-front duplicate check over the truthy
(non-empty) item paths when skipExisting is set, then a strictly sequential
fold over the items in input order. -/
def createTasks (svc : BasesDataItem → CreateOutcome) (allTasks : List TaskInfo)
    (items : List BasesDataItem) (skipExisting : Bool) : BulkCreationResult :=
  let existing := if skipExisting then
      (checkForDuplicates allTasks
        ((items.map BasesDataItem.path).filter (fun p => !p.isEmpty))).existingTaskPaths
    else []
  items.foldl (createStep svc existing skipExisting) ⟨0, 0, 0, [], []⟩

/-! ## bulk-convert-engine: convertNotes -/

/-- Outcome of one conversion attempt as observed by the loop of
convertNotes: success, a path that resolves to no file, or a thrown error. -/
inductive ConvOutcome where
  | ok
  | notFound
  | threw (msg : Str)
deriving DecidableEq, Repr

/-- Result shape of convertNotes. -/
structure BulkConvertResult where
  converted : Nat
  skipped : Nat
  failed : Nat
  errors : List Str
  convertedPaths : List Str
deriving DecidableEq, Repr

/-- Insertion into a JavaScript Set modelled on lists: append if absent. -/
def setAdd (l : List Str) (x : Str) : List Str := if x ∈ l then l else l ++ [x]

/-- Embeds the preCheck scan of the conversion engine: every item with a
truthy path whose resolved file's frontmatter satisfies the task classifier
is collected, with Set deduplication; isTaskAt models vault lookup plus the
classifier. -/
def alreadyTaskPaths (isTaskAt : Str → Bool) (items : List BasesDataItem) : List Str :=
  items.foldl
    (fun acc it => if !it.path.isEmpty && isTaskAt it.path then setAdd acc it.path else acc) []

/-- The non-skip part of the convertNotes loop body: record a missing file
or a thrown error as a failure whose error string identifies the source
path, and record a successful conversion. -/
def convertApply (conv : BasesDataItem → ConvOutcome) (acc : BulkConvertResult)
    (item : BasesDataItem) : BulkConvertResult :=
  match conv item with
  | .notFound => { acc with
      failed := acc.failed + 1
      errors := acc.errors ++ [str "File not found: " ++ item.path] }
  | .threw m => { acc with
      failed := acc.failed + 1
      errors := acc.errors ++ [str "Error for " ++ item.path ++ str ": " ++ m] }
  | .ok => { acc with
      converted := acc.converted + 1
      convertedPaths := acc.convertedPaths ++ [item.path] }

/-- One iteration of the convertNotes loop: skip items flagged as already
tasks by the pre-check, otherwise convert. -/
def convertStep (conv : BasesDataItem → ConvOutcome) (already : List Str)
    (acc : BulkConvertResult) (item : BasesDataItem) : BulkConvertResult :=
  if item.path ∈ already then { acc with skipped := acc.skipped + 1 }
  else convertApply conv acc item

/-- Embeds convertNotes: one pre-check over all items, then a strictly
sequential fold over the items in input order. -/
def convertNotes (conv : BasesDataItem → ConvOutcome) (isTaskAt : Str → Bool)
    (items : List BasesDataItem) : BulkConvertResult :=
  items.foldl (convertStep conv (alreadyTaskPaths isTaskAt items)) ⟨0, 0, 0, [], []⟩

/-! ## Batch non-abortion facts -/

/-- Branch analysis of one createTasks iteration: exactly one counter grows,
and a new error string embeds the item's path. -/
theorem createStep_spec (svc : BasesDataItem → CreateOutcome) (existing : List Str)
    (sk : Bool) (acc : BulkCreationResult) (it : BasesDataItem) :
    (createStep svc existing sk acc it).created + (createStep svc existing sk acc it).skipped
        + (createStep svc existing sk acc it).failed
      = acc.created + acc.skipped + acc.failed + 1
    ∧ ((createStep svc existing sk acc it).errors = acc.errors
        ∧ (createStep svc existing sk acc it).failed = acc.failed
      ∨ ∃ pre post, (createStep svc existing sk acc it).errors
            = acc.errors ++ [pre ++ it.path ++ post]
          ∧ (createStep svc existing sk acc it).failed = acc.failed + 1) := by
  unfold createStep createApply
  by_cases hsk : sk = true ∧ it.path ∈ existing
  · rw [if_pos hsk]
    refine ⟨?_, Or.inl (by constructor <;> first | rfl | trivial)⟩
    show acc.created + (acc.skipped + 1) + acc.failed = acc.created + acc.skipped + acc.failed + 1
    omega
  · rw [if_neg hsk]
    rcases hsvc : svc it with p | _ | m <;> simp only [hsvc]
    · refine ⟨?_, Or.inl (by constructor <;> first | rfl | trivial)⟩
      show acc.created + 1 + acc.skipped + acc.failed = acc.created + acc.skipped + acc.failed + 1
      omega
    · refine ⟨?_, Or.inr ⟨str "Failed to create task for: ", [], ?_, by first | rfl | trivial⟩⟩
      · show acc.created + acc.skipped + (acc.failed + 1) = acc.created + acc.skipped + acc.failed + 1
        omega
      · show acc.errors ++ [str "Failed to create task for: " ++ it.path]
            = acc.errors ++ [str "Failed to create task for: " ++ it.path ++ []]
        simp
    · refine ⟨?_, Or.inr ⟨str "Error for ", str ": " ++ m, ?_, by first | rfl | trivial⟩⟩
      · show acc.created + acc.skipped + (acc.failed + 1) = acc.created + acc.skipped + acc.failed + 1
        omega
      · show acc.errors ++ [str "Error for " ++ it.path ++ str ": " ++ m]
            = acc.errors ++ [str "Error for " ++ it.path ++ (str ": " ++ m)]
        simp

/-- Branch analysis of one convertNotes iteration. -/
theorem convertStep_spec (conv : BasesDataItem → ConvOutcome) (already : List Str)
    (acc : BulkConvertResult) (it : BasesDataItem) :
    (convertStep conv already acc it).converted + (convertStep conv already acc it).skipped
        + (convertStep conv already acc it).failed
      = acc.converted + acc.skipped + acc.failed + 1
    ∧ ((convertStep conv already acc it).errors = acc.errors
        ∧ (convertStep conv already acc it).failed = acc.failed
      ∨ ∃ pre post, (convertStep conv already acc it).errors
            = acc.errors ++ [pre ++ it.path ++ post]
          ∧ (convertStep conv already acc it).failed = acc.failed + 1) := by
  unfold convertStep convertApply
  by_cases hsk : it.path ∈ already
  · rw [if_pos hsk]
    refine ⟨?_, Or.inl (by constructor <;> first | rfl | trivial)⟩
    show acc.converted + (acc.skipped + 1) + acc.failed = acc.converted + acc.skipped + acc.failed + 1
    omega
  · rw [if_neg hsk]
    rcases hc : conv it with _ | _ | m <;> simp only [hc]
    · refine ⟨?_, Or.inl (by constructor <;> first | rfl | trivial)⟩
      show acc.converted + 1 + acc.skipped + acc.failed = acc.converted + acc.skipped + acc.failed + 1
      omega
    · refine ⟨?_, Or.inr ⟨str "File not found: ", [], ?_, by first | rfl | trivial⟩⟩
      · show acc.converted + acc.skipped + (acc.failed + 1) = acc.converted + acc.skipped + acc.failed + 1
        omega
      · show acc.errors ++ [str "File not found: " ++ it.path]
            = acc.errors ++ [str "File not found: " ++ it.path ++ []]
        simp
    · refine ⟨?_, Or.inr ⟨str "Error for ", str ": " ++ m, ?_, by first | rfl | trivial⟩⟩
      · show acc.converted + acc.skipped + (acc.failed + 1) = acc.converted + acc.skipped + acc.failed + 1
        omega
      · show acc.errors ++ [str "Error for " ++ it.path ++ str ": " ++ m]
            = acc.errors ++ [str "Error for " ++ it.path ++ (str ": " ++ m)]
        simp

/-- Fold invariant for the createTasks loop. -/
theorem createTasks_fold_spec (svc : BasesDataItem → CreateOutcome) (existing : List Str)
    (sk : Bool) (items : List BasesDataItem) :
    ∀ acc : BulkCreationResult,
      (items.foldl (createStep svc existing sk) acc).created
          + (items.foldl (createStep svc existing sk) acc).skipped
          + (items.foldl (createStep svc existing sk) acc).failed
        = acc.created + acc.skipped + acc.failed + items.length
      ∧ (items.foldl (createStep svc existing sk) acc).errors.length + acc.failed
        = acc.errors.length + (items.foldl (createStep svc existing sk) acc).failed
      ∧ ∀ e ∈ (items.foldl (createStep svc existing sk) acc).errors,
          e ∈ acc.errors ∨ ∃ it ∈ items, ∃ pre post, e = pre ++ it.path ++ post := by
  induction items with
  | nil =>
    intro acc
    refine ⟨by simp, by simp, ?_⟩
    intro e he
    exact Or.inl he
  | cons it its ih =>
    intro acc
    obtain ⟨hcnt, herr⟩ := createStep_spec svc existing sk acc it
    obtain ⟨ih1, ih2, ih3⟩ := ih (createStep svc existing sk acc it)
    refine ⟨?_, ?_, ?_⟩
    · simp only [List.foldl_cons, List.length_cons]
      omega
    · simp only [List.foldl_cons]
      rcases herr with ⟨he, hf⟩ | ⟨pre, post, he, hf⟩
      · rw [he, hf] at ih2
        omega
      · have hlen := congrArg List.length he
        simp at hlen
        rw [hf, hlen] at ih2
        omega
    · simp only [List.foldl_cons]
      intro e he
      rcases ih3 e he with hin | ⟨it2, hit2, pre, post, hpp⟩
      · rcases herr with ⟨heq, -⟩ | ⟨pre, post, heq, -⟩
        · rw [heq] at hin
          exact Or.inl hin
        · rw [heq] at hin
          rcases List.mem_append.mp hin with hin | hin
          · exact Or.inl hin
          · refine Or.inr ⟨it, by simp, pre, post, ?_⟩
            simpa using hin
      · exact Or.inr ⟨it2, by simp [hit2], pre, post, hpp⟩

/-- Fold invariant for the convertNotes loop. -/
theorem convertNotes_fold_spec (conv : BasesDataItem → ConvOutcome) (already : List Str)
    (items : List BasesDataItem) :
    ∀ acc : BulkConvertResult,
      (items.foldl (convertStep conv already) acc).converted
          + (items.foldl (convertStep conv already) acc).skipped
          + (items.foldl (convertStep conv already) acc).failed
        = acc.converted + acc.skipped + acc.failed + items.length
      ∧ (items.foldl (convertStep conv already) acc).errors.length + acc.failed
        = acc.errors.length + (items.foldl (convertStep conv already) acc).failed
      ∧ ∀ e ∈ (items.foldl (convertStep conv already) acc).errors,
          e ∈ acc.errors ∨ ∃ it ∈ items, ∃ pre post, e = pre ++ it.path ++ post := by
  induction items with
  | nil =>
    intro acc
    refine ⟨by simp, by simp, ?_⟩
    intro e he
    exact Or.inl he
  | cons it its ih =>
    intro acc
    obtain ⟨hcnt, herr⟩ := convertStep_spec conv already acc it
    obtain ⟨ih1, ih2, ih3⟩ := ih (convertStep conv already acc it)
    refine ⟨?_, ?_, ?_⟩
    · simp only [List.foldl_cons, List.length_cons]
      omega
    · simp only [List.foldl_cons]
      rcases herr with ⟨he, hf⟩ | ⟨pre, post, he, hf⟩
      · rw [he, hf] at ih2
        omega
      · have hlen := congrArg List.length he
        simp at hlen
        rw [hf, hlen] at ih2
        omega
    · simp only [List.foldl_cons]
      intro e he
      rcases ih3 e he with hin | ⟨it2, hit2, pre, post, hpp⟩
      · rcases herr with ⟨heq, -⟩ | ⟨pre, post, heq, -⟩
        · rw [heq] at hin
          exact Or.inl hin
        · rw [heq] at hin
          rcases List.mem_append.mp hin with hin | hin
          · exact Or.inl hin
          · refine Or.inr ⟨it, by simp, pre, post, ?_⟩
            simpa using hin
      · exact Or.inr ⟨it2, by simp [hit2], pre, post, hpp⟩

/-- C9: both batch engines return a structured result whose counters
partition the batch, whose error list has exactly one entry per failed item,
and whose every error string embeds the source path of some item; a failing
item never prevents later items from being counted. -/
theorem batch_failures_never_abort :
    (∀ (svc : BasesDataItem → CreateOutcome) (allTasks : List TaskInfo)
        (items : List BasesDataItem) (sk : Bool),
      (createTasks svc allTasks items sk).created + (createTasks svc allTasks items sk).skipped
          + (createTasks svc allTasks items sk).failed = items.length
      ∧ (createTasks svc allTasks items sk).errors.length = (createTasks svc allTasks items sk).failed
      ∧ ∀ e ∈ (createTasks svc allTasks items sk).errors,
          ∃ it ∈ items, ∃ pre post, e = pre ++ it.path ++ post)
    ∧ (∀ (conv : BasesDataItem → ConvOutcome) (isTaskAt : Str → Bool)
        (items : List BasesDataItem),
      (convertNotes conv isTaskAt items).converted + (convertNotes conv isTaskAt items).skipped
          + (convertNotes conv isTaskAt items).failed = items.length
      ∧ (convertNotes conv isTaskAt items).errors.length = (convertNotes conv isTaskAt items).failed
      ∧ ∀ e ∈ (convertNotes conv isTaskAt items).errors,
          ∃ it ∈ items, ∃ pre post, e = pre ++ it.path ++ post) := by
  constructor
  · intro svc allTasks items sk
    obtain ⟨h1, h2, h3⟩ := createTasks_fold_spec svc
      (if sk then (checkForDuplicates allTasks
        ((items.map BasesDataItem.path).filter (fun p => !p.isEmpty))).existingTaskPaths
       else []) sk items ⟨0, 0, 0, [], []⟩
    refine ⟨by simpa [createTasks] using h1, by simpa [createTasks] using h2, ?_⟩
    intro e he
    have he' : e ∈ (createTasks svc allTasks items sk).errors := he
    rcases h3 e (by simpa [createTasks] using he') with hin | hgood
    · simp at hin
    · exact hgood
  · intro conv isTaskAt items
    obtain ⟨h1, h2, h3⟩ := convertNotes_fold_spec conv (alreadyTaskPaths isTaskAt items)
      items ⟨0, 0, 0, [], []⟩
    refine ⟨by simpa [convertNotes] using h1, by simpa [convertNotes] using h2, ?_⟩
    intro e he
    have he' : e ∈ (convertNotes conv isTaskAt items).errors := he
    rcases h3 e (by simpa [convertNotes] using he') with hin | hgood
    · simp at hin
    · exact hgood

/-- C9 witness: the non-abortion theorem applied to a concrete batch where
the middle item throws, so the later item is still processed. -/
theorem batch_failures_never_abort_witness :
    ∃ it ∈ [BasesDataItem.mk (str "a"), BasesDataItem.mk (str "b"), BasesDataItem.mk (str "c")],
      ∃ pre post,
        str "Error for b: boom" = pre ++ it.path ++ post :=
  (batch_failures_never_abort.1
      (fun it => if it.path = str "b" then .threw (str "boom") else .ok (str "t"))
      [] [⟨str "a"⟩, ⟨str "b"⟩, ⟨str "c"⟩] false).2.2
    (str "Error for b: boom") (by decide)

/-- C10: in createTasks with skipExisting set, an item with an empty path is
filtered out of the checked source paths, never appears in the duplicate
set, and its loop iteration always takes the creation branch, leaving the
skipped counter untouched. -/
theorem createTasks_empty_path_not_skipped
    (svc : BasesDataItem → CreateOutcome) (allTasks : List TaskInfo)
    (items : List BasesDataItem) (item : BasesDataItem) (acc : BulkCreationResult)
    (hpath : item.path = []) :
    item.path ∉ (items.map BasesDataItem.path).filter (fun p => !p.isEmpty)
    ∧ item.path ∉ (checkForDuplicates allTasks
          ((items.map BasesDataItem.path).filter (fun p => !p.isEmpty))).existingTaskPaths
    ∧ createStep svc ((checkForDuplicates allTasks
          ((items.map BasesDataItem.path).filter (fun p => !p.isEmpty))).existingTaskPaths)
        true acc item = createApply svc acc item
    ∧ (createStep svc ((checkForDuplicates allTasks
          ((items.map BasesDataItem.path).filter (fun p => !p.isEmpty))).existingTaskPaths)
        true acc item).skipped = acc.skipped := by
  have h1 : item.path ∉ (items.map BasesDataItem.path).filter (fun p => !p.isEmpty) := by
    intro hm
    have := (List.mem_filter.mp hm).2
    rw [hpath] at this
    simp at this
  have h2 : item.path ∉ (checkForDuplicates allTasks
      ((items.map BasesDataItem.path).filter (fun p => !p.isEmpty))).existingTaskPaths := by
    intro hm
    exact h1 (List.mem_filter.mp hm).1
  have h3 : createStep svc ((checkForDuplicates allTasks
      ((items.map BasesDataItem.path).filter (fun p => !p.isEmpty))).existingTaskPaths)
      true acc item = createApply svc acc item := by
    unfold createStep
    rw [if_neg]
    intro hcon
    exact h2 hcon.2
  refine ⟨h1, h2, h3, ?_⟩
  rw [h3]
  rcases hs : svc item with p | _ | m <;> simp [createApply, hs]

/-- C10 witness: the theorem applied to a concrete batch containing an
empty-path item. -/
theorem createTasks_empty_path_not_skipped_witness :
    createStep (fun _ => CreateOutcome.ok (str "t"))
        ((checkForDuplicates [] (([BasesDataItem.mk (str "")].map BasesDataItem.path).filter
          (fun p => !p.isEmpty))).existingTaskPaths)
        true ⟨0, 0, 0, [], []⟩ ⟨str ""⟩
      = createApply (fun _ => CreateOutcome.ok (str "t")) ⟨0, 0, 0, [], []⟩ ⟨str ""⟩ :=
  (createTasks_empty_path_not_skipped (fun _ => CreateOutcome.ok (str "t")) []
    [⟨str ""⟩] ⟨str ""⟩ ⟨0, 0, 0, [], []⟩ (by decide)).2.2.1

/-! ## bulk-convert-engine: convertSingleNote -/

/-- Frontmatter values: booleans, strings, and arrays, the shapes that
convertSingleNote reads or writes. -/
inductive Val where
  | b : Bool → Val
  | s : Str → Val
  | arr : List Val → Val

mutual

/-- Decidable equality on frontmatter values. -/
def Val.decEq : (a b : Val) → Decidable (a = b)
  | .b x, .b y =>
    match Bool.decEq x y with
    | isTrue h => isTrue (by rw [h])
    | isFalse h => isFalse (fun hh => h (by injection hh))
  | .s x, .s y =>
    match List.hasDecEq x y with
    | isTrue h => isTrue (by rw [h])
    | isFalse h => isFalse (fun hh => h (by injection hh))
  | .arr xs, .arr ys =>
    match Val.decEqList xs ys with
    | isTrue h => isTrue (by rw [h])
    | isFalse h => isFalse (fun hh => h (by injection hh))
  | .b _, .s _ => isFalse (fun h => Val.noConfusion h)
  | .b _, .arr _ => isFalse (fun h => Val.noConfusion h)
  | .s _, .b _ => isFalse (fun h => Val.noConfusion h)
  | .s _, .arr _ => isFalse (fun h => Val.noConfusion h)
  | .arr _, .b _ => isFalse (fun h => Val.noConfusion h)
  | .arr _, .s _ => isFalse (fun h => Val.noConfusion h)

/-- Decidable equality on lists of frontmatter values. -/
def Val.decEqList : (a b : List Val) → Decidable (a = b)
  | [], [] => isTrue rfl
  | x :: xs, y :: ys =>
    match Val.decEq x y, Val.decEqList xs ys with
    | isTrue h1, isTrue h2 => isTrue (by rw [h1, h2])
    | isFalse h1, _ => isFalse (fun hh => h1 (by injection hh))
    | isTrue _, isFalse h2 => isFalse (fun hh => h2 (by injection hh))
  | [], _ :: _ => isFalse (fun h => List.noConfusion h)
  | _ :: _, [] => isFalse (fun h => List.noConfusion h)

end

instance : DecidableEq Val := Val.decEq

/-- A frontmatter bag: an association list from field name to value, in
insertion order, with the unique-key discipline of a JavaScript object. -/
abbrev Frontmatter := List (Str × Val)

/-- Reads a field; none models a field that is undefined. -/
def fmGet : Frontmatter → Str → Option Val
  | [], _ => none
  | e :: rest, k => if e.1 = k then some e.2 else fmGet rest k

/-- Writes a field: replaces the first entry with the key in place, or
appends a new entry, as assignment on a JavaScript object does. -/
def fmSet : Frontmatter → Str → Val → Frontmatter
  | [], k, v => [(k, v)]
  | e :: rest, k, v => if e.1 = k then (e.1, v) :: rest else e :: fmSet rest k v

/-- The two mutually exclusive task-identification strategies. -/
inductive IdMethod where
  | property
  | tag
deriving DecidableEq, Repr

/-- The slice of plugin settings and field-mapper output that
convertSingleNote reads; each Field entry is the user-facing name the field
mapper returns for the corresponding internal field. -/
structure ConvertSettings where
  taskIdentificationMethod : IdMethod
  taskPropertyName : Str
  taskPropertyValue : Str
  taskTag : Str
  defaultTaskStatus : Str
  defaultTaskPriority : Str
  statusField : Str
  priorityField : Str
  dateCreatedField : Str
  projectsField : Str
  dateModifiedField : Str
deriving DecidableEq, Repr

/-- Options of one conversion call; baseLink is some generated link text
exactly when linkToBase is set, a base file path is given, and that path
resolves to a file, which is the precise condition under which the code
touches the projects field. -/
structure ConvertOptions where
  applyDefaults : Bool
  baseLink : Option Str
deriving DecidableEq, Repr

/-- String task-property values true and false are coerced to booleans. -/
def coerceTaskPropertyValue (v : Str) : Val :=
  if v = str "true" then .b true
  else if v = str "false" then .b false
  else .s v

/-- Step 1 of convertSingleNote: add the task-identification marker.  The
property strategy sets the configured property only when the name is truthy
and the property is absent; the tag strategy normalizes a non-array tags
value to an empty array and appends the task tag when not already present. -/
def addTaskIdentification (cfg : ConvertSettings) (fm : Frontmatter) : Frontmatter :=
  match cfg.taskIdentificationMethod with
  | .property =>
    if cfg.taskPropertyName ≠ [] ∧ fmGet fm cfg.taskPropertyName = none then
      fmSet fm cfg.taskPropertyName (coerceTaskPropertyValue cfg.taskPropertyValue)
    else fm
  | .tag =>
    let taskTag := if cfg.taskTag = [] then str "task" else cfg.taskTag
    match fmGet fm (str "tags") with
    | some (.arr l) =>
      if Val.s taskTag ∈ l then fm
      else fmSet fm (str "tags") (.arr (l ++ [Val.s taskTag]))
    | _ => fmSet fm (str "tags") (.arr [Val.s taskTag])

/-- Step 2 of convertSingleNote: when applyDefaults is set, fill status,
priority and creation timestamp, each only when currently absent. -/
def applyDefaultFields (cfg : ConvertSettings) (opts : ConvertOptions) (now : Str)
    (fm : Frontmatter) : Frontmatter :=
  if opts.applyDefaults then
    let fm1 := if fmGet fm cfg.statusField = none then
        fmSet fm cfg.statusField
          (.s (if cfg.defaultTaskStatus = [] then str "open" else cfg.defaultTaskStatus))
      else fm
    let fm2 := if fmGet fm1 cfg.priorityField = none then
        fmSet fm1 cfg.priorityField
          (.s (if cfg.defaultTaskPriority = [] then str "normal" else cfg.defaultTaskPriority))
      else fm1
    if fmGet fm2 cfg.dateCreatedField = none then fmSet fm2 cfg.dateCreatedField (.s now)
    else fm2
  else fm

/-- Step 2.5 of convertSingleNote: push a back-link onto the projects field
when a link was generated, initializing an absent field and leaving a
non-array value untouched. -/
def linkToBaseField (cfg : ConvertSettings) (opts : ConvertOptions)
    (fm : Frontmatter) : Frontmatter :=
  match opts.baseLink with
  | none => fm
  | some link =>
    match fmGet fm cfg.projectsField with
    | none => fmSet fm cfg.projectsField (.arr [Val.s link])
    | some (.arr l) =>
      if Val.s link ∈ l then fm
      else fmSet fm cfg.projectsField (.arr (l ++ [Val.s link]))
    | some _ => fm

/-- Embeds convertSingleNote as the single read-modify-write it performs on
the frontmatter bag: identification marker, optional defaults, optional
back-link, then the unconditional modification-timestamp overwrite. -/
def convertSingleNote (cfg : ConvertSettings) (opts : ConvertOptions) (now : Str)
    (fm : Frontmatter) : Frontmatter :=
  fmSet (linkToBaseField cfg opts (applyDefaultFields cfg opts now (addTaskIdentification cfg fm)))
    cfg.dateModifiedField (.s now)

/-- Reading after writing: the written key returns the new value, every
other key is unchanged. -/
theorem fmGet_fmSet (fm : Frontmatter) (k : Str) (v : Val) (f : Str) :
    fmGet (fmSet fm k v) f = if f = k then some v else fmGet fm f := by
  induction fm with
  | nil =>
    simp only [fmSet, fmGet]
    by_cases h : f = k
    · rw [if_pos (by rw [h]), if_pos h]
    · rw [if_neg (fun hh => h hh.symm), if_neg h]
  | cons e rest ih =>
    simp only [fmSet]
    by_cases he : e.1 = k
    · rw [if_pos he]
      by_cases hf : f = k
      · simp only [fmGet]
        rw [if_pos (by rw [he, hf]), if_pos hf]
      · simp only [fmGet]
        have hef : ¬ e.1 = f := by
          rw [he]
          exact fun hh => hf hh.symm
        rw [if_neg hef, if_neg hf, if_neg hef]
    · rw [if_neg he]
      by_cases hef : e.1 = f
      · simp only [fmGet]
        rw [if_pos hef, if_pos hef, if_neg (fun hh => he (hef.trans hh))]
      · simp only [fmGet]
        rw [if_neg hef, if_neg hef, ih]

/-- Writing another key does not change a read. -/
theorem fmGet_fmSet_ne (fm : Frontmatter) (k : Str) (v : Val) (f : Str) (h : f ≠ k) :
    fmGet (fmSet fm k v) f = fmGet fm f := by
  rw [fmGet_fmSet, if_neg h]

/-- A guarded set-only-if-absent never changes a field that is present. -/
theorem setIfAbsent_preserves (fm : Frontmatter) (k : Str) (w : Val) (f : Str) (v : Val)
    (hv : fmGet fm f = some v) :
    fmGet (if fmGet fm k = none then fmSet fm k w else fm) f = some v := by
  by_cases hk : fmGet fm k = none
  · rw [if_pos hk, fmGet_fmSet]
    by_cases hf : f = k
    · rw [hf] at hv
      rw [hv] at hk
      cases hk
    · rw [if_neg hf]
      exact hv
  · rw [if_neg hk]
    exact hv

/-- C1 (amended): convertSingleNote never changes a field that is present
before the mutation, except the modification-timestamp field (always
overwritten), the tags field under the tag identification strategy
(normalized and appended to), and the projects field when a query back-link
is being added (appended to); and the modification timestamp is overwritten
on every conversion. -/
theorem convertSingleNote_nonclobber_amended :
    (∀ (cfg : ConvertSettings) (opts : ConvertOptions) (now : Str) (fm : Frontmatter)
        (f : Str) (v : Val),
      f ≠ cfg.dateModifiedField →
      (cfg.taskIdentificationMethod = .property ∨ f ≠ str "tags") →
      (opts.baseLink = none ∨ f ≠ cfg.projectsField) →
      fmGet fm f = some v →
      fmGet (convertSingleNote cfg opts now fm) f = some v)
    ∧ (∀ (cfg : ConvertSettings) (opts : ConvertOptions) (now : Str) (fm : Frontmatter),
      fmGet (convertSingleNote cfg opts now fm) cfg.dateModifiedField = some (.s now)) := by
  constructor
  · intro cfg opts now fm f v hdm htags hproj hv
    have h1 : fmGet (addTaskIdentification cfg fm) f = some v := by
      unfold addTaskIdentification
      rcases hm : cfg.taskIdentificationMethod with - | -
      · simp only [hm]
        split
        · next hcond =>
          have hf : f ≠ cfg.taskPropertyName := by
            intro hh
            rw [hh] at hv
            rw [hcond.2] at hv
            cases hv
          rw [fmGet_fmSet_ne _ _ _ _ hf]
          exact hv
        · exact hv
      · have hft : f ≠ str "tags" := by
          rcases htags with hc | hc
          · rw [hm] at hc
            cases hc
          · exact hc
        simp only [hm]
        rcases hg : fmGet fm (str "tags") with _ | w
        · simp only [hg]
          rw [fmGet_fmSet_ne _ _ _ _ hft]
          exact hv
        · rcases w with b0 | s0 | l
          · simp only [hg]
            rw [fmGet_fmSet_ne _ _ _ _ hft]
            exact hv
          · simp only [hg]
            rw [fmGet_fmSet_ne _ _ _ _ hft]
            exact hv
          · simp only [hg]
            by_cases hmem : Val.s (if cfg.taskTag = [] then str "task" else cfg.taskTag) ∈ l
            · rw [if_pos hmem]
              exact hv
            · rw [if_neg hmem, fmGet_fmSet_ne _ _ _ _ hft]
              exact hv
    have h2 : fmGet (applyDefaultFields cfg opts now (addTaskIdentification cfg fm)) f = some v := by
      unfold applyDefaultFields
      split
      · exact setIfAbsent_preserves _ _ _ _ _
          (setIfAbsent_preserves _ _ _ _ _
            (setIfAbsent_preserves _ _ _ _ _ h1))
      · exact h1
    have h3 : fmGet (linkToBaseField cfg opts
        (applyDefaultFields cfg opts now (addTaskIdentification cfg fm))) f = some v := by
      unfold linkToBaseField
      rcases hb : opts.baseLink with - | link
      · simp only [hb]
        exact h2
      · have hfp : f ≠ cfg.projectsField := by
          rcases hproj with hc | hc
          · rw [hb] at hc
            cases hc
          · exact hc
        simp only [hb]
        rcases hg : fmGet (applyDefaultFields cfg opts now (addTaskIdentification cfg fm))
            cfg.projectsField with _ | w
        · simp only [hg]
          rw [fmGet_fmSet_ne _ _ _ _ hfp]
          exact h2
        · rcases w with b0 | s0 | l
          · simp only [hg]
            exact h2
          · simp only [hg]
            exact h2
          · simp only [hg]
            by_cases hmem : Val.s link ∈ l
            · rw [if_pos hmem]
              exact h2
            · rw [if_neg hmem, fmGet_fmSet_ne _ _ _ _ hfp]
              exact h2
    unfold convertSingleNote
    rw [fmGet_fmSet_ne _ _ _ _ hdm]
    exact h3
  · intro cfg opts now fm
    unfold convertSingleNote
    rw [fmGet_fmSet, if_pos rfl]

/-- Settings used by the C1 counterexample: tag identification strategy
with the default task tag. -/
def c1cfg : ConvertSettings :=
  ⟨.tag, str "task", str "true", str "task", str "open", str "normal",
    str "status", str "priority", str "dateCreated", str "projects", str "dateModified"⟩

/-- Frontmatter used by the C1 counterexample: a tags field already present
with one element. -/
def c1fm : Frontmatter := [(str "tags", .arr [.s (str "doc")])]

/-- C1 counterexample: under the tag strategy a present tags field is not
preserved byte-identically, although it is not the modification-timestamp
field; the task tag is appended to it. -/
theorem convertSingleNote_nonclobber_counterexample :
    (fmGet c1fm (str "tags")).isSome = true
    ∧ str "tags" ≠ c1cfg.dateModifiedField
    ∧ fmGet (convertSingleNote c1cfg ⟨false, none⟩ (str "2026-02-03T04:05") c1fm) (str "tags")
        ≠ fmGet c1fm (str "tags") := by
  decide

/-- C1 witness: the amended theorem applied to a concrete conversion under
the property strategy, where a present status field is preserved and the
modification timestamp is overwritten. -/
theorem convertSingleNote_nonclobber_witness :
    fmGet (convertSingleNote
        ⟨.property, str "task", str "true", str "task", str "open", str "normal",
          str "status", str "priority", str "dateCreated", str "projects", str "dateModified"⟩
        ⟨true, none⟩ (str "2026-02-03T04:05") [(str "status", .s (str "done"))])
      (str "status") = some (.s (str "done"))
    ∧ fmGet (convertSingleNote
        ⟨.property, str "task", str "true", str "task", str "open", str "normal",
          str "status", str "priority", str "dateCreated", str "projects", str "dateModified"⟩
        ⟨true, none⟩ (str "2026-02-03T04:05") [(str "status", .s (str "done"))])
      (str "dateModified") = some (.s (str "2026-02-03T04:05")) :=
  ⟨convertSingleNote_nonclobber_amended.1
      ⟨.property, str "task", str "true", str "task", str "open", str "normal",
        str "status", str "priority", str "dateCreated", str "projects", str "dateModified"⟩
      ⟨true, none⟩ (str "2026-02-03T04:05") [(str "status", .s (str "done"))]
      (str "status") (.s (str "done"))
      (by decide) (Or.inl rfl) (Or.inl rfl) (by decide),
    convertSingleNote_nonclobber_amended.2
      ⟨.property, str "task", str "true", str "task", str "open", str "normal",
        str "status", str "priority", str "dateCreated", str "projects", str "dateModified"⟩
      ⟨true, none⟩ (str "2026-02-03T04:05") [(str "status", .s (str "done"))]⟩

/-! ## BasesQueryWatcher -/

/-- Debounce delay of the watcher, in milliseconds. -/
def EVALUATION_DEBOUNCE_MS : Nat := 1000

/-- Startup scan delay of the watcher, in milliseconds. -/
def STARTUP_SCAN_DELAY_MS : Nat := 5000

/-- Periodic rescan interval of the watcher, in milliseconds. -/
def PERIODIC_SCAN_INTERVAL_MS : Nat := 5 * 60 * 1000

/-- One monitored base registry entry. -/
structure MonitoredBase where
  path : Str
  name : Str
  snoozedUntil : Nat
  lastResultCount : Nat
  cachedPaths : List Str
deriving DecidableEq, Repr

/-- One item of a notification payload; the optional status is omitted
because no watcher control flow reads it. -/
structure NotificationItem where
  path : Str
  title : Str
  isTask : Bool
deriving DecidableEq, Repr

/-- A dispatched notification: which base it is for and its items. -/
structure Notification where
  basePath : Str
  baseName : Str
  items : List NotificationItem
deriving DecidableEq, Repr

/-- The watcher's mutable state.  Timer fields hold the deadline of the
pending callback; periodicScanStarted records that startPeriodicScan ran,
whose interval id the code discards, so no field of the class can refer to
it afterwards. -/
structure WatcherState where
  monitoredBases : List (Str × MonitoredBase)
  pendingEvaluations : List Str
  scanTimeout : Option Nat
  evaluationDebounceTimer : Option Nat
  taskUpdateListenerActive : Bool
  metadataListenerActive : Bool
  fileDeleteListenerActive : Bool
  fileRenameListenerActive : Bool
  periodicScanStarted : Bool
  initializedFlag : Bool
deriving DecidableEq, Repr

/-- Reads the registry map: first entry with the key. -/
def lookupBase : List (Str × MonitoredBase) → Str → Option MonitoredBase
  | [], _ => none
  | e :: rest, k => if e.1 = k then some e.2 else lookupBase rest k

/-- Replaces the value of the first entry with the key, in place, as the
in-place mutation of the object returned by a map lookup does. -/
def updateBase : List (Str × MonitoredBase) → Str → MonitoredBase → List (Str × MonitoredBase)
  | [], _, _ => []
  | e :: rest, k, m => if e.1 = k then (e.1, m) :: rest else e :: updateBase rest k m

/-- The path set of a result list, with JavaScript Set insertion semantics. -/
def setOfList (l : List Str) : List Str := l.foldl setAdd []

/-- Embeds scheduleEvaluation: clear any pending debounce callback and
register a new one at now plus the debounce delay — the single shared timer
is reset, never stacked. -/
def scheduleEvaluation (now : Nat) (s : WatcherState) : WatcherState :=
  { s with evaluationDebounceTimer := some (now + EVALUATION_DEBOUNCE_MS) }

/-- Embeds handlePathChange: mark every base whose cached result paths
contain the changed path, additionally mark every non-snoozed base, then
reset the shared debounce timer. -/
def handlePathChange (now : Nat) (changedPath : Str) (s : WatcherState) : WatcherState :=
  let pending1 := s.monitoredBases.foldl
    (fun a e => if changedPath ∈ e.2.cachedPaths then setAdd a e.1 else a)
    s.pendingEvaluations
  let pending2 := s.monitoredBases.foldl
    (fun a e => if e.2.snoozedUntil ≤ now then setAdd a e.1 else a) pending1
  scheduleEvaluation now { s with pendingEvaluations := pending2 }

/-- Embeds snoozeBase: set the snooze expiry of a registered base to now
plus the duration in minutes, converted to milliseconds. -/
def snoozeBase (now : Nat) (basePath : Str) (durationMinutes : Nat)
    (s : WatcherState) : WatcherState :=
  match lookupBase s.monitoredBases basePath with
  | none => s
  | some m =>
    let m2 : MonitoredBase := { m with snoozedUntil := now + durationMinutes * 60000 }
    { s with monitoredBases := updateBase s.monitoredBases basePath m2 }

/-- Embeds startPeriodicScan: a repeating interval is registered, and its
id is discarded by the code. -/
def startPeriodicScan (s : WatcherState) : WatcherState :=
  { s with periodicScanStarted := true }

/-- Embeds destroy: both stored timeout handles are cleared, the four event
subscriptions are released, and registry and pending set are cleared; the
code holds no reference to the interval registered by startPeriodicScan, so
destroy leaves it untouched. -/
def destroy (s : WatcherState) : WatcherState :=
  { monitoredBases := []
    pendingEvaluations := []
    scanTimeout := none
    evaluationDebounceTimer := none
    taskUpdateListenerActive := false
    metadataListenerActive := false
    fileDeleteListenerActive := false
    fileRenameListenerActive := false
    periodicScanStarted := s.periodicScanStarted
    initializedFlag := false }

/-- State update performed on one monitored base after its query resolved:
a non-empty result list replaces the cached path set and count; an empty or
null result clears them. -/
def applyResult (m : MonitoredBase) (r : Option (List NotificationItem)) : MonitoredBase :=
  match r with
  | some l =>
    if l.isEmpty then { m with cachedPaths := [], lastResultCount := 0 }
    else { m with
      cachedPaths := setOfList (l.map NotificationItem.path)
      lastResultCount := l.length }
  | none => { m with cachedPaths := [], lastResultCount := 0 }

/-- One iteration of the evaluatePendingBases loop over a snapshotted base
path: skip unregistered or snoozed bases, skip (leaving state unchanged) on
a thrown evaluation, otherwise update the registry entry and dispatch a
notification exactly when the result list is non-empty.  The eval argument
is the oracle for evaluateBaseQuery: ok none models a query with no usable
fallback source, error models a throw. -/
def evalOne (eval : Str → Except Str (Option (List NotificationItem))) (now : Nat)
    (acc : List (Str × MonitoredBase) × List Notification) (basePath : Str) :
    List (Str × MonitoredBase) × List Notification :=
  match lookupBase acc.1 basePath with
  | none => acc
  | some m =>
    if now < m.snoozedUntil then acc
    else
      match eval basePath with
      | .error _ => acc
      | .ok r =>
        let notifs :=
          match r with
          | some l => if l.isEmpty then acc.2 else acc.2 ++ [⟨basePath, m.name, l⟩]
          | none => acc.2
        (updateBase acc.1 basePath (applyResult m r), notifs)

/-- Embeds evaluatePendingBases: return immediately when nothing is
pending, otherwise snapshot and clear the pending set and process every
snapshotted base path in order. -/
def evaluatePendingBases (eval : Str → Except Str (Option (List NotificationItem)))
    (now : Nat) (s : WatcherState) : WatcherState × List Notification :=
  if s.pendingEvaluations.isEmpty then (s, [])
  else
    let res := s.pendingEvaluations.foldl (evalOne eval now) (s.monitoredBases, [])
    ({ s with monitoredBases := res.1, pendingEvaluations := [] }, res.2)

/-- Counts the evaluation passes produced by a sequence of change-event
times under the watcher's debounce discipline: each event resets the single
shared timer to its own time plus the delay (scheduleEvaluation), and a
pending timer fires once its deadline arrives before the next event. -/
def debouncePasses : Option Nat → List Nat → Nat
  | none, [] => 0
  | some _, [] => 1
  | none, t :: ts => debouncePasses (some (t + EVALUATION_DEBOUNCE_MS)) ts
  | some dl, t :: ts =>
    if t < dl then debouncePasses (some (t + EVALUATION_DEBOUNCE_MS)) ts
    else 1 + debouncePasses (some (t + EVALUATION_DEBOUNCE_MS)) ts

/-- C3: destroy clears both stored timers, releases all four event
subscriptions, and empties registry and pending set — but the periodic
rescan interval registered by startPeriodicScan survives destroy, because
its id was never stored; so the claim that no watcher timer fires after
teardown fails on the code. -/
theorem destroy_leaves_periodic_timer (s : WatcherState) :
    (destroy s).scanTimeout = none
    ∧ (destroy s).evaluationDebounceTimer = none
    ∧ (destroy s).taskUpdateListenerActive = false
    ∧ (destroy s).metadataListenerActive = false
    ∧ (destroy s).fileDeleteListenerActive = false
    ∧ (destroy s).fileRenameListenerActive = false
    ∧ (destroy s).monitoredBases = []
    ∧ (destroy s).pendingEvaluations = []
    ∧ (destroy (startPeriodicScan s)).periodicScanStarted = true :=
  ⟨rfl, rfl, rfl, rfl, rfl, rfl, rfl, rfl, rfl⟩

/-- Burst auxiliary: while every next event arrives before the pending
deadline, the single timer keeps being reset and fires exactly once at the
end. -/
theorem debouncePasses_burst (ts : List Nat) :
    ∀ t : Nat, List.Chain' (fun a b => a ≤ b ∧ b < a + EVALUATION_DEBOUNCE_MS) (t :: ts) →
      debouncePasses (some (t + EVALUATION_DEBOUNCE_MS)) ts = 1 := by
  induction ts with
  | nil =>
    intro t _
    rfl
  | cons t2 rest ih =>
    intro t hch
    have h12 := (List.chain'_cons.mp hch).1
    have htail := (List.chain'_cons.mp hch).2
    simp only [debouncePasses, if_pos h12.2]
    exact ih t2 htail

/-- Spread auxiliary: when every gap exceeds the delay, each event finds
the previous timer already fired. -/
theorem debouncePasses_spread (ts : List Nat) :
    ∀ t : Nat, List.Chain' (fun a b => a + EVALUATION_DEBOUNCE_MS < b) (t :: ts) →
      debouncePasses (some (t + EVALUATION_DEBOUNCE_MS)) ts = ts.length + 1 := by
  induction ts with
  | nil =>
    intro t _
    rfl
  | cons t2 rest ih =>
    intro t hch
    have h12 := (List.chain'_cons.mp hch).1
    have htail := (List.chain'_cons.mp hch).2
    have hge : ¬ t2 < t + EVALUATION_DEBOUNCE_MS := by omega
    simp only [debouncePasses, if_neg hge]
    rw [ih t2 htail]
    simp [List.length_cons]
    omega

/-- C6: marking pending resets the one shared debounce timer to the mark
time plus the fixed delay; a burst of events each arriving within the
window of the previous one yields exactly one evaluation pass, and events
separated by more than the delay yield one pass per event. -/
theorem debounce_coalescing :
    (∀ (t : Nat) (s : WatcherState),
      (scheduleEvaluation t s).evaluationDebounceTimer = some (t + EVALUATION_DEBOUNCE_MS))
    ∧ (∀ (t : Nat) (ts : List Nat),
      List.Chain' (fun a b => a ≤ b ∧ b < a + EVALUATION_DEBOUNCE_MS) (t :: ts) →
      debouncePasses none (t :: ts) = 1)
    ∧ (∀ ts : List Nat,
      List.Chain' (fun a b => a + EVALUATION_DEBOUNCE_MS < b) ts →
      debouncePasses none ts = ts.length) := by
  refine ⟨fun t s => rfl, ?_, ?_⟩
  · intro t ts hch
    simp only [debouncePasses]
    exact debouncePasses_burst ts t hch
  · intro ts hch
    cases ts with
    | nil => rfl
    | cons t rest =>
      simp only [debouncePasses]
      rw [debouncePasses_spread rest t hch]
      simp

/-- C6 witness: the coalescing theorem applied to a concrete burst of three
events inside one debounce window and three events spread farther apart
than the delay. -/
theorem debounce_coalescing_witness :
    debouncePasses none [0, 500, 900] = 1
    ∧ debouncePasses none [0, 2000, 4000] = [0, 2000, 4000].length :=
  ⟨debounce_coalescing.2.1 0 [500, 900]
      (by simp [List.chain'_cons, EVALUATION_DEBOUNCE_MS]),
    debounce_coalescing.2.2 [0, 2000, 4000]
      (by simp [List.chain'_cons, EVALUATION_DEBOUNCE_MS])⟩

/-! ## Registry and evaluation-pass facts -/

/-- Updating one key leaves every other key's lookup unchanged. -/
theorem lookupBase_updateBase_ne (mbs : List (Str × MonitoredBase)) (k : Str)
    (m : MonitoredBase) (b : Str) (h : b ≠ k) :
    lookupBase (updateBase mbs k m) b = lookupBase mbs b := by
  induction mbs with
  | nil => rfl
  | cons e rest ih =>
    simp only [updateBase]
    by_cases he : e.1 = k
    · rw [if_pos he]
      simp only [lookupBase]
      have hne : ¬ e.1 = b := by
        rw [he]
        exact fun hh => h hh.symm
      rw [if_neg hne, if_neg hne]
    · rw [if_neg he]
      simp only [lookupBase]
      by_cases hb : e.1 = b
      · rw [if_pos hb, if_pos hb]
      · rw [if_neg hb, if_neg hb, ih]

/-- Updating a registered key makes its lookup return the new value. -/
theorem lookupBase_updateBase_self (mbs : List (Str × MonitoredBase)) (k : Str)
    (m m0 : MonitoredBase) (h : lookupBase mbs k = some m0) :
    lookupBase (updateBase mbs k m) k = some m := by
  induction mbs with
  | nil => cases h
  | cons e rest ih =>
    simp only [updateBase]
    by_cases he : e.1 = k
    · rw [if_pos he]
      simp only [lookupBase]
      rw [if_pos he]
    · rw [if_neg he]
      simp only [lookupBase] at h ⊢
      rw [if_neg he] at h
      rw [if_neg he]
      exact ih h

/-- A successful lookup exhibits a registry entry. -/
theorem lookupBase_mem (mbs : List (Str × MonitoredBase)) (k : Str) (m : MonitoredBase)
    (h : lookupBase mbs k = some m) : (k, m) ∈ mbs := by
  induction mbs with
  | nil => cases h
  | cons e rest ih =>
    simp only [lookupBase] at h
    by_cases he : e.1 = k
    · rw [if_pos he] at h
      have hm : e.2 = m := by injection h
      have : e = (k, m) := by
        cases e
        simp only at he hm
        rw [he, hm]
      rw [← this]
      exact List.mem_cons_self e rest
    · rw [if_neg he] at h
      exact List.mem_cons_of_mem e (ih h)

/-- Processing one snapshot element never changes another base's entry. -/
theorem evalOne_lookup_ne (eval : Str → Except Str (Option (List NotificationItem)))
    (now : Nat) (acc : List (Str × MonitoredBase) × List Notification) (c b : Str)
    (h : b ≠ c) :
    lookupBase (evalOne eval now acc c).1 b = lookupBase acc.1 b := by
  unfold evalOne
  rcases hl : lookupBase acc.1 c with _ | m <;> simp only [hl]
  by_cases hsn : now < m.snoozedUntil
  · rw [if_pos hsn]
  · rw [if_neg hsn]
    rcases he : eval c with e | r <;> simp only [he]
    show lookupBase (updateBase acc.1 c (applyResult m r)) b = lookupBase acc.1 b
    exact lookupBase_updateBase_ne _ _ _ _ h

/-- Processing one snapshot element either adds no notification or adds
exactly one, tagged with that element's base path. -/
theorem evalOne_notifs (eval : Str → Except Str (Option (List NotificationItem)))
    (now : Nat) (acc : List (Str × MonitoredBase) × List Notification) (c : Str) :
    (evalOne eval now acc c).2 = acc.2
    ∨ ∃ nm l, (evalOne eval now acc c).2 = acc.2 ++ [⟨c, nm, l⟩] := by
  unfold evalOne
  rcases hl : lookupBase acc.1 c with _ | m <;> simp only [hl]
  · exact Or.inl (by first | rfl | trivial)
  · by_cases hsn : now < m.snoozedUntil
    · rw [if_pos hsn]
      exact Or.inl (by first | rfl | trivial)
    · rw [if_neg hsn]
      rcases he : eval c with e | r <;> simp only [he]
      · exact Or.inl (by first | rfl | trivial)
      · rcases r with _ | l
        · exact Or.inl (by first | rfl | trivial)
        · by_cases hl2 : l.isEmpty
          · left
            show (if l.isEmpty then acc.2 else acc.2 ++ [⟨c, m.name, l⟩]) = acc.2
            rw [if_pos hl2]
          · right
            refine ⟨m.name, l, ?_⟩
            show (if l.isEmpty then acc.2 else acc.2 ++ [⟨c, m.name, l⟩])
                = acc.2 ++ [⟨c, m.name, l⟩]
            rw [if_neg hl2]

/-- A base path not in the processed list keeps its registry entry through
the whole pass. -/
theorem evalFold_not_mem (eval : Str → Except Str (Option (List NotificationItem)))
    (now : Nat) (b : Str) :
    ∀ (l : List Str) (acc : List (Str × MonitoredBase) × List Notification), b ∉ l →
      lookupBase (l.foldl (evalOne eval now) acc).1 b = lookupBase acc.1 b := by
  intro l
  induction l with
  | nil =>
    intro acc _
    rfl
  | cons c rest ih =>
    intro acc hb
    have hbc : b ≠ c := fun hh => hb (by simp [hh])
    have hbr : b ∉ rest := fun hm => hb (by simp [hm])
    simp only [List.foldl_cons]
    rw [ih _ hbr, evalOne_lookup_ne _ _ _ _ _ hbc]

/-- A snoozed base is skipped by every element of an evaluation pass: its
entry is unchanged and no notification carries its path. -/
theorem evalFold_snoozed (eval : Str → Except Str (Option (List NotificationItem)))
    (t : Nat) (b : Str) (m₂ : MonitoredBase) :
    ∀ (l : List Str) (acc : List (Str × MonitoredBase) × List Notification),
      lookupBase acc.1 b = some m₂ → t < m₂.snoozedUntil →
      (∀ n ∈ acc.2, n.basePath ≠ b) →
      lookupBase (l.foldl (evalOne eval t) acc).1 b = some m₂
      ∧ ∀ n ∈ (l.foldl (evalOne eval t) acc).2, n.basePath ≠ b := by
  intro l
  induction l with
  | nil =>
    intro acc h1 h2 h3
    exact ⟨h1, h3⟩
  | cons c rest ih =>
    intro acc h1 h2 h3
    simp only [List.foldl_cons]
    by_cases hbc : b = c
    · subst hbc
      have hsame : evalOne eval t acc b = acc := by
        unfold evalOne
        simp only [h1]
        rw [if_pos h2]
      rw [hsame]
      exact ih acc h1 h2 h3
    · have hl : lookupBase (evalOne eval t acc c).1 b = some m₂ := by
        rw [evalOne_lookup_ne _ _ _ _ _ hbc]
        exact h1
      have hn : ∀ n ∈ (evalOne eval t acc c).2, n.basePath ≠ b := by
        rcases evalOne_notifs eval t acc c with he | ⟨nm, l2, he⟩
        · rw [he]
          exact h3
        · rw [he]
          intro n hnn
          rcases List.mem_append.mp hnn with hnn | hnn
          · exact h3 n hnn
          · have heq : n = ⟨c, nm, l2⟩ := by simpa using hnn
            rw [heq]
            exact fun hh => hbc hh.symm
      exact ih _ hl h2 hn

/-- Processing a registered, non-snoozed snapshot element leaves exactly
the entry its evaluation outcome dictates. -/
theorem evalOne_lookup_self (eval : Str → Except Str (Option (List NotificationItem)))
    (now : Nat) (acc : List (Str × MonitoredBase) × List Notification) (b : Str)
    (m : MonitoredBase) (hm : lookupBase acc.1 b = some m)
    (hsn : ¬ now < m.snoozedUntil) :
    lookupBase (evalOne eval now acc b).1 b
      = (match eval b with
         | .ok r => some (applyResult m r)
         | .error _ => some m) := by
  unfold evalOne
  simp only [hm]
  rw [if_neg hsn]
  rcases he : eval b with e | r <;> simp only [he]
  · exact hm
  · show lookupBase (updateBase acc.1 b (applyResult m r)) b = some (applyResult m r)
    exact lookupBase_updateBase_self _ _ _ _ hm

/-- A non-snoozed base in the snapshot ends the pass with the entry
determined by its own evaluation outcome, whatever happens to the other
snapshot elements. -/
theorem evalFold_process (eval : Str → Except Str (Option (List NotificationItem)))
    (now : Nat) (b : Str) (m : MonitoredBase) (l1 l2 : List Str)
    (acc : List (Str × MonitoredBase) × List Notification)
    (h1 : b ∉ l1) (h2 : b ∉ l2) (hm : lookupBase acc.1 b = some m)
    (hsn : ¬ now < m.snoozedUntil) :
    lookupBase ((l1 ++ b :: l2).foldl (evalOne eval now) acc).1 b
      = (match eval b with
         | .ok r => some (applyResult m r)
         | .error _ => some m) := by
  rw [List.foldl_append]
  have hacc1 : lookupBase (l1.foldl (evalOne eval now) acc).1 b = some m := by
    rw [evalFold_not_mem eval now b l1 acc h1]
    exact hm
  simp only [List.foldl_cons]
  rw [evalFold_not_mem eval now b l2 _ h2]
  exact evalOne_lookup_self eval now _ b m hacc1 hsn

/-- Membership in a JavaScript Set after one insertion. -/
theorem mem_setAdd (l : List Str) (y x : Str) : x ∈ setAdd l y ↔ x ∈ l ∨ x = y := by
  unfold setAdd
  by_cases hm : y ∈ l
  · rw [if_pos hm]
    constructor
    · exact Or.inl
    · rintro (h | h)
      · exact h
      · rw [h]
        exact hm
  · rw [if_neg hm]
    simp

/-- Membership after collecting a list into a Set. -/
theorem mem_setOfList_aux (l : List Str) :
    ∀ (acc : List Str) (x : Str), x ∈ l.foldl setAdd acc ↔ x ∈ acc ∨ x ∈ l := by
  induction l with
  | nil =>
    intro acc x
    simp
  | cons c rest ih =>
    intro acc x
    simp only [List.foldl_cons]
    rw [ih]
    rw [mem_setAdd]
    constructor
    · rintro ((h | h) | h)
      · exact Or.inl h
      · exact Or.inr (by simp [h])
      · exact Or.inr (by simp [h])
    · rintro (h | h)
      · exact Or.inl (Or.inl h)
      · rcases List.mem_cons.mp h with h | h
        · exact Or.inl (Or.inr h)
        · exact Or.inr h

/-- The Set of a list has exactly the list's members. -/
theorem mem_setOfList (l : List Str) (x : Str) : x ∈ setOfList l ↔ x ∈ l := by
  unfold setOfList
  rw [mem_setOfList_aux]
  simp

/-- C5: after a completed evaluation pass, a registered base that was
pending and not snoozed holds exactly the entry produced by its own
evaluation — the result path set on success, also when empty or null, and
its previous entry unchanged when the evaluation throws, independently of
every other snapshot element; a base not in the snapshot is untouched; and
the updated cached path set is exactly the path set of the result list. -/
theorem evaluatePendingBases_cache_update :
    (∀ (eval : Str → Except Str (Option (List NotificationItem))) (now : Nat)
        (s : WatcherState) (b : Str) (m : MonitoredBase),
      s.pendingEvaluations.Nodup →
      lookupBase s.monitoredBases b = some m →
      (b ∈ s.pendingEvaluations → ¬ now < m.snoozedUntil →
        (∀ r, eval b = .ok r →
          lookupBase (evaluatePendingBases eval now s).1.monitoredBases b
            = some (applyResult m r))
        ∧ (∀ err, eval b = .error err →
          lookupBase (evaluatePendingBases eval now s).1.monitoredBases b = some m))
      ∧ (b ∉ s.pendingEvaluations →
          lookupBase (evaluatePendingBases eval now s).1.monitoredBases b = some m))
    ∧ (∀ (m0 : MonitoredBase) (r : Option (List NotificationItem)) (p : Str),
        p ∈ (applyResult m0 r).cachedPaths ↔ ∃ l, r = some l ∧ p ∈ l.map NotificationItem.path) := by
  constructor
  · intro eval now s b m hnd hm
    constructor
    · intro hin hsn
      have hne : ¬ s.pendingEvaluations.isEmpty = true := by
        rcases hpe : s.pendingEvaluations with _ | ⟨c, rest⟩
        · rw [hpe] at hin
          cases hin
        · simp
      have heval : (evaluatePendingBases eval now s).1.monitoredBases
          = (s.pendingEvaluations.foldl (evalOne eval now)
              (s.monitoredBases, ([] : List Notification))).1 := by
        unfold evaluatePendingBases
        rw [if_neg hne]
      obtain ⟨l1, l2, hsplit⟩ := List.append_of_mem hin
      rw [hsplit] at hnd
      have hnd2 := List.nodup_append.mp hnd
      have hb2 : b ∉ l2 := by
        have := hnd2.2.1
        rw [List.nodup_cons] at this
        exact this.1
      have hb1 : b ∉ l1 := fun hmem => hnd2.2.2 hmem (List.mem_cons_self b l2)
      have hproc := evalFold_process eval now b m l1 l2
        (s.monitoredBases, ([] : List Notification)) hb1 hb2 hm hsn
      rw [heval, hsplit]
      constructor
      · intro r hr
        rw [hproc, hr]
      · intro err hr
        rw [hproc, hr]
    · intro hnotin
      by_cases hne : s.pendingEvaluations.isEmpty
      · unfold evaluatePendingBases
        rw [if_pos hne]
        exact hm
      · have heval : (evaluatePendingBases eval now s).1.monitoredBases
            = (s.pendingEvaluations.foldl (evalOne eval now)
                (s.monitoredBases, ([] : List Notification))).1 := by
          unfold evaluatePendingBases
          rw [if_neg hne]
        rw [heval, evalFold_not_mem eval now b _ _ hnotin]
        exact hm
  · intro m0 r p
    rcases r with _ | l
    · simp [applyResult]
    · by_cases hl : l.isEmpty
      · have hnil : l = [] := by
          rwa [List.isEmpty_iff] at hl
        subst hnil
        simp [applyResult]
      · simp only [applyResult, if_neg hl]
        show p ∈ setOfList (l.map NotificationItem.path) ↔ _
        rw [mem_setOfList]
        simp

/-- Concrete monitored base for the C5 witness. -/
def c5base : MonitoredBase := ⟨str "q.base", str "Q", 0, 0, []⟩

/-- Concrete watcher state for the C5 witness. -/
def c5state : WatcherState :=
  { monitoredBases := [(str "q.base", c5base)]
    pendingEvaluations := [str "q.base"]
    scanTimeout := none
    evaluationDebounceTimer := none
    taskUpdateListenerActive := true
    metadataListenerActive := true
    fileDeleteListenerActive := true
    fileRenameListenerActive := true
    periodicScanStarted := true
    initializedFlag := true }

/-- Concrete evaluation oracle for the C5 witness. -/
def c5eval : Str → Except Str (Option (List NotificationItem)) :=
  fun _ => .ok (some [⟨str "p1", str "T1", false⟩, ⟨str "p2", str "T2", true⟩])

/-- C5 witness: the cache-update theorem applied to a concrete pass with a
two-item result. -/
theorem evaluatePendingBases_cache_update_witness :
    lookupBase (evaluatePendingBases c5eval 5 c5state).1.monitoredBases (str "q.base")
      = some (applyResult c5base
          (some [⟨str "p1", str "T1", false⟩, ⟨str "p2", str "T2", true⟩])) :=
  ((evaluatePendingBases_cache_update.1 c5eval 5 c5state (str "q.base") c5base
      (by decide) (by decide)).1 (by decide) (by decide)).1
    (some [⟨str "p1", str "T1", false⟩, ⟨str "p2", str "T2", true⟩]) rfl

/-! ## Pending-set marking facts -/

/-- The pending-marking folds of handlePathChange only ever add paths. -/
theorem mem_pendingFold_mono (P : Str × MonitoredBase → Prop) [DecidablePred P] :
    ∀ (mbs : List (Str × MonitoredBase)) (acc : List Str) (x : Str), x ∈ acc →
      x ∈ mbs.foldl (fun a e => if P e then setAdd a e.1 else a) acc := by
  intro mbs
  induction mbs with
  | nil =>
    intro acc x hx
    exact hx
  | cons e rest ih =>
    intro acc x hx
    simp only [List.foldl_cons]
    apply ih
    by_cases hp : P e
    · rw [if_pos hp]
      rw [mem_setAdd]
      exact Or.inl hx
    · rw [if_neg hp]
      exact hx

/-- A registry entry satisfying the marking predicate gets its path marked
pending. -/
theorem mem_pendingFold_entry (P : Str × MonitoredBase → Prop) [DecidablePred P] :
    ∀ (mbs : List (Str × MonitoredBase)) (acc : List Str) (e0 : Str × MonitoredBase),
      e0 ∈ mbs → P e0 →
      e0.1 ∈ mbs.foldl (fun a e => if P e then setAdd a e.1 else a) acc := by
  intro mbs
  induction mbs with
  | nil =>
    intro acc e0 h _
    cases h
  | cons e rest ih =>
    intro acc e0 hmem hp
    simp only [List.foldl_cons]
    rcases List.mem_cons.mp hmem with he | he
    · subst he
      apply mem_pendingFold_mono
      rw [if_pos hp, mem_setAdd]
      exact Or.inr rfl
    · exact ih _ _ he hp

/-- C7: snoozeBase sets the query's snooze expiry to now plus the duration
in minutes (in milliseconds); a later change event leaves the registry
untouched while still able to mark the snoozed query pending via its cached
paths; and as long as the pass time is before the snooze expiry the query's
entry is left unchanged by every evaluation pass and no notification
carrying its path is dispatched. -/
theorem snooze_gating :
    ∀ (s : WatcherState) (q : Str) (m : MonitoredBase) (d now : Nat),
      lookupBase s.monitoredBases q = some m →
      (lookupBase (snoozeBase now q d s).monitoredBases q
          = some { m with snoozedUntil := now + d * 60000 })
      ∧ (∀ (t : Nat) (p : Str),
          (handlePathChange t p (snoozeBase now q d s)).monitoredBases
            = (snoozeBase now q d s).monitoredBases
          ∧ (p ∈ m.cachedPaths →
              q ∈ (handlePathChange t p (snoozeBase now q d s)).pendingEvaluations))
      ∧ (∀ (eval : Str → Except Str (Option (List NotificationItem))) (t : Nat)
          (s₂ : WatcherState) (m₂ : MonitoredBase),
          lookupBase s₂.monitoredBases q = some m₂ → t < m₂.snoozedUntil →
          lookupBase (evaluatePendingBases eval t s₂).1.monitoredBases q = some m₂
          ∧ ∀ n ∈ (evaluatePendingBases eval t s₂).2, n.basePath ≠ q) := by
  intro s q m d now hm
  have h1 : lookupBase (snoozeBase now q d s).monitoredBases q
      = some { m with snoozedUntil := now + d * 60000 } := by
    unfold snoozeBase
    simp only [hm]
    exact lookupBase_updateBase_self _ _ _ _ hm
  refine ⟨h1, ?_, ?_⟩
  · intro t p
    refine ⟨rfl, ?_⟩
    intro hp
    have hmem := lookupBase_mem _ _ _ h1
    show q ∈ (snoozeBase now q d s).monitoredBases.foldl
      (fun a e => if e.2.snoozedUntil ≤ t then setAdd a e.1 else a)
      ((snoozeBase now q d s).monitoredBases.foldl
        (fun a e => if p ∈ e.2.cachedPaths then setAdd a e.1 else a)
        (snoozeBase now q d s).pendingEvaluations)
    apply mem_pendingFold_mono
    exact mem_pendingFold_entry (fun e => p ∈ e.2.cachedPaths) _ _ _ hmem hp
  · intro eval t s₂ m₂ hm₂ hsn
    by_cases hne : s₂.pendingEvaluations.isEmpty
    · constructor
      · unfold evaluatePendingBases
        rw [if_pos hne]
        exact hm₂
      · intro n hn
        have : (evaluatePendingBases eval t s₂).2 = [] := by
          unfold evaluatePendingBases
          rw [if_pos hne]
        rw [this] at hn
        cases hn
    · have hfold := evalFold_snoozed eval t q m₂ s₂.pendingEvaluations
        (s₂.monitoredBases, ([] : List Notification)) hm₂ hsn
        (fun n hn => absurd hn (List.not_mem_nil n))
      constructor
      · unfold evaluatePendingBases
        rw [if_neg hne]
        exact hfold.1
      · have : (evaluatePendingBases eval t s₂).2
            = (s₂.pendingEvaluations.foldl (evalOne eval t)
                (s₂.monitoredBases, ([] : List Notification))).2 := by
          unfold evaluatePendingBases
          rw [if_neg hne]
        rw [this]
        exact hfold.2

/-- Concrete monitored base for the C7 witness. -/
def c7base : MonitoredBase := ⟨str "q.base", str "Q", 0, 0, [str "doc.md"]⟩

/-- Concrete watcher state for the C7 witness. -/
def c7state : WatcherState :=
  { monitoredBases := [(str "q.base", c7base)]
    pendingEvaluations := []
    scanTimeout := none
    evaluationDebounceTimer := none
    taskUpdateListenerActive := true
    metadataListenerActive := true
    fileDeleteListenerActive := true
    fileRenameListenerActive := true
    periodicScanStarted := true
    initializedFlag := true }

/-- Concrete evaluation oracle for the C7 witness. -/
def c7eval : Str → Except Str (Option (List NotificationItem)) :=
  fun _ => .ok (some [⟨str "doc.md", str "D", false⟩])

/-- C7 witness: the snooze-gating theorem applied to a query snoozed for
fifteen minutes, a change event on a cached path, and a pass ten
milliseconds later. -/
theorem snooze_gating_witness :
    lookupBase (snoozeBase 0 (str "q.base") 15 c7state).monitoredBases (str "q.base")
      = some { c7base with snoozedUntil := 0 + 15 * 60000 }
    ∧ str "q.base" ∈ (handlePathChange 10 (str "doc.md")
        (snoozeBase 0 (str "q.base") 15 c7state)).pendingEvaluations
    ∧ (lookupBase (evaluatePendingBases c7eval 10 (handlePathChange 10 (str "doc.md")
          (snoozeBase 0 (str "q.base") 15 c7state))).1.monitoredBases (str "q.base")
        = some ⟨str "q.base", str "Q", 900000, 0, [str "doc.md"]⟩
      ∧ ∀ n ∈ (evaluatePendingBases c7eval 10 (handlePathChange 10 (str "doc.md")
          (snoozeBase 0 (str "q.base") 15 c7state))).2, n.basePath ≠ str "q.base") :=
  ⟨(snooze_gating c7state (str "q.base") c7base 15 0 (by decide)).1,
    ((snooze_gating c7state (str "q.base") c7base 15 0 (by decide)).2.1
      10 (str "doc.md")).2 (by decide),
    (snooze_gating c7state (str "q.base") c7base 15 0 (by decide)).2.2 c7eval 10
      (handlePathChange 10 (str "doc.md") (snoozeBase 0 (str "q.base") 15 c7state))
      ⟨str "q.base", str "Q", 900000, 0, [str "doc.md"]⟩ (by decide) (by decide)⟩

end TaskNotes
